import Mathlib

/-!
Verification of the distributed key-value cache (hash ring + coordinator/replica
server) against its natural-language specification.

The development shallowly embeds the two source modules the claims are about:

* `hash_ring.py` — the consistent hash ring (`ConsistentHashRing`): MD5-based
  virtual-node placement, the sorted position list maintained with
  `bisect.insort`, the position→node dict, and the clockwise walk `get_nodes`.
* `server.py` — the coordinator/replica engine (`CacheServiceServicer`): the
  `Set` handler (replication-marker classification, fan-out loop, gather
  barrier, write-through persistence task) and the `Get` handler (local store
  fast path, legacy HTTP fallback).

Python `bytes` values are modelled as `List Nat` (byte lists), Python dicts as
insertion-ordered association lists with overwrite-on-collision, and the
outcome of each external I/O action (peer RPC, database execute, legacy HTTP
request) as an explicit oracle argument.  Each handler returns, besides its
response, the new store contents and a trace of the I/O effects it issued, so
frame conditions ("no outbound RPC", "no persistence write") are statements
about the trace.

MD5 is embedded in full (RFC 1321) over byte lists, because the ring masks the
digest to 32 bits (`int(hexdigest, 16) & 0xFFFFFFFF`), which makes genuine
position collisions between virtual nodes of different physical nodes
constructible and observable.
-/

set_option maxRecDepth 100000

/-! ### MD5 (RFC 1321) over byte lists -/

/-- 2^32 - 1: the mask used by `_hash` (`hash_ring.py` line 65) and throughout
the 32-bit MD5 arithmetic. -/
def mask32 : Nat := 4294967295

/-- 32-bit left rotation. -/
def rotl32 (x s : Nat) : Nat := ((x <<< s) ||| (x >>> (32 - s))) &&& mask32

/-- MD5 round constants `K[i] = floor(abs(sin(i+1)) * 2^32)`. -/
def md5K : List Nat := [3614090360, 3905402710, 606105819, 3250441966, 4118548399, 1200080426, 2821735955, 4249261313, 1770035416, 2336552879, 4294925233, 2304563134, 1804603682, 4254626195, 2792965006, 1236535329, 4129170786, 3225465664, 643717713, 3921069994, 3593408605, 38016083, 3634488961, 3889429448, 568446438, 3275163606, 4107603335, 1163531501, 2850285829, 4243563512, 1735328473, 2368359562, 4294588738, 2272392833, 1839030562, 4259657740, 2763975236, 1272893353, 4139469664, 3200236656, 681279174, 3936430074, 3572445317, 76029189, 3654602809, 3873151461, 530742520, 3299628645, 4096336452, 1126891415, 2878612391, 4237533241, 1700485571, 2399980690, 4293915773, 2240044497, 1873313359, 4264355552, 2734768916, 1309151649, 4149444226, 3174756917, 718787259, 3951481745]

/-- MD5 per-round left-rotation amounts. -/
def md5S : List Nat := [7, 12, 17, 22, 7, 12, 17, 22, 7, 12, 17, 22, 7, 12, 17, 22, 5, 9, 14, 20, 5, 9, 14, 20, 5, 9, 14, 20, 5, 9, 14, 20, 4, 11, 16, 23, 4, 11, 16, 23, 4, 11, 16, 23, 4, 11, 16, 23, 6, 10, 15, 21, 6, 10, 15, 21, 6, 10, 15, 21, 6, 10, 15, 21]

/-- MD5 nonlinear function for round `i`. -/
def md5F (i b c d : Nat) : Nat :=
  if i < 16 then (b &&& c) ||| ((mask32 ^^^ b) &&& d)
  else if i < 32 then (d &&& b) ||| ((mask32 ^^^ d) &&& c)
  else if i < 48 then b ^^^ c ^^^ d
  else c ^^^ (b ||| (mask32 ^^^ d))

/-- MD5 message-word index for round `i`. -/
def md5G (i : Nat) : Nat :=
  if i < 16 then i
  else if i < 32 then (5 * i + 1) % 16
  else if i < 48 then (3 * i + 5) % 16
  else (7 * i) % 16

/-- One MD5 round on the state `(a, b, c, d)` with message words `M`. -/
def md5Round (M : List Nat) (st : Nat × Nat × Nat × Nat) (i : Nat) : Nat × Nat × Nat × Nat :=
  let a := st.1
  let b := st.2.1
  let c := st.2.2.1
  let d := st.2.2.2
  let f := (md5F i b c d + a + md5K.getD i 0 + M.getD (md5G i) 0) &&& mask32
  (d, (b + rotl32 f (md5S.getD i 0)) &&& mask32, b, c)

/-- Assemble a 32-bit word from four bytes, little-endian. -/
def le32word (b0 b1 b2 b3 : Nat) : Nat := b0 + 256 * b1 + 65536 * b2 + 16777216 * b3

/-- Process one 64-byte block. -/
def md5ProcessBlock (st : Nat × Nat × Nat × Nat) (block : List Nat) : Nat × Nat × Nat × Nat :=
  let M := (List.range 16).map (fun j =>
    le32word (block.getD (4 * j) 0) (block.getD (4 * j + 1) 0)
      (block.getD (4 * j + 2) 0) (block.getD (4 * j + 3) 0))
  let r := (List.range 64).foldl (md5Round M) st
  ((st.1 + r.1) &&& mask32, (st.2.1 + r.2.1) &&& mask32,
   (st.2.2.1 + r.2.2.1) &&& mask32, (st.2.2.2 + r.2.2.2) &&& mask32)

/-- A 64-bit quantity as eight little-endian bytes. -/
def le64bytes (n : Nat) : List Nat :=
  [n &&& 255, (n >>> 8) &&& 255, (n >>> 16) &&& 255, (n >>> 24) &&& 255,
   (n >>> 32) &&& 255, (n >>> 40) &&& 255, (n >>> 48) &&& 255, (n >>> 56) &&& 255]

/-- A 32-bit quantity as four little-endian bytes. -/
def le32bytes (n : Nat) : List Nat :=
  [n &&& 255, (n >>> 8) &&& 255, (n >>> 16) &&& 255, (n >>> 24) &&& 255]

/-- MD5 padding: a `0x80` byte, zeros to 56 mod 64, then the bit length as a
little-endian 64-bit quantity.  `(119 - len % 64) % 64` is the Nat-safe form of
`(56 - (len + 1)) mod 64`. -/
def md5Pad (m : List Nat) : List Nat :=
  m ++ [128] ++ List.replicate ((119 - m.length % 64) % 64) 0 ++ le64bytes (8 * m.length)

/-- Split a byte list into 64-byte chunks.  The first argument is structural
fuel; callers pass the list's length, which always suffices since each step
consumes at least one byte. -/
def chunks64 : Nat → List Nat → List (List Nat)
  | 0, _ => []
  | _ + 1, [] => []
  | fuel + 1, l => l.take 64 :: chunks64 fuel (l.drop 64)

/-- The 16-byte MD5 digest of a byte message. -/
def md5Digest (m : List Nat) : List Nat :=
  let padded := md5Pad m
  let r := (chunks64 padded.length padded).foldl md5ProcessBlock
    (1732584193, 4023233417, 2562383102, 271733878)
  le32bytes r.1 ++ le32bytes r.2.1 ++ le32bytes r.2.2.1 ++ le32bytes r.2.2.2

/-- UTF-8 encoding of a Unicode code point. -/
def utf8EncodeCharNat (c : Nat) : List Nat :=
  if c < 128 then [c]
  else if c < 2048 then [192 ||| (c >>> 6), 128 ||| (c &&& 63)]
  else if c < 65536 then [224 ||| (c >>> 12), 128 ||| ((c >>> 6) &&& 63), 128 ||| (c &&& 63)]
  else [240 ||| (c >>> 18), 128 ||| ((c >>> 12) &&& 63), 128 ||| ((c >>> 6) &&& 63), 128 ||| (c &&& 63)]

/-- `s.encode('utf-8')` as a byte list. -/
def strBytes (s : String) : List Nat := (s.data.map (fun c => utf8EncodeCharNat c.toNat)).flatten

/-- The hex digest of MD5 read as a big-endian integer, i.e. Python's
`int(hashlib.md5(x).hexdigest(), 16)`. -/
def md5HexInt (m : List Nat) : Nat := (md5Digest m).foldl (fun acc b => acc * 256 + b) 0

/-- `ConsistentHashRing._hash` (`hash_ring.py` lines 64-65):
`int(md5(key.encode('utf-8')).hexdigest(), 16) & 0xFFFFFFFF`. -/
def md5hash32 (s : String) : Nat := md5HexInt (strBytes s) &&& mask32

/-- MD5 validation against RFC 1321 / `hashlib` reference values. -/
theorem md5hash32_testvectors :
    md5hash32 "abc" = 685866866 ∧ md5hash32 "" = 3975692926 ∧
    md5hash32 "node1:50051:0" = 657846758 ∧ md5hash32 "my_special_key" = 3544480537 := by
  refine ⟨?_, ?_, ?_, ?_⟩ <;> decide

/-! ### Python dict and `bisect.insort` models -/

/-- Python dict assignment `d[k] = v` on an insertion-ordered association
list: an existing key keeps its position and gets the new value; a new key is
appended. -/
def dictInsert {κ ν : Type} [DecidableEq κ] : List (κ × ν) → κ → ν → List (κ × ν)
  | [], k, v => [(k, v)]
  | (k', v') :: rest, k, v =>
    if k' = k then (k', v) :: rest else (k', v') :: dictInsert rest k v

/-- Python dict lookup `d.get(k)` / `d[k]`: `none` models a missing key. -/
def dictGet {κ ν : Type} [DecidableEq κ] : List (κ × ν) → κ → Option ν
  | [], _ => none
  | (k', v') :: rest, k => if k' = k then some v' else dictGet rest k

/-- `bisect.insort(l, x)`: insert `x` into a sorted list after any equal
entries (insort_right semantics). -/
def insort : List Nat → Nat → List Nat
  | [], x => [x]
  | y :: t, x => if x < y then x :: y :: t else y :: insort t x

/-- `bisect.bisect_left(l, x)` on a sorted list: the leftmost index whose
entry is `≥ x`, or `l.length` when every entry is `< x`. -/
def bisectLeft (l : List Nat) (x : Nat) : Nat := l.findIdx (fun y => decide (x ≤ y))

/-! ### The consistent hash ring (`hash_ring.py`) -/

/-- State of `ConsistentHashRing`: `replicas` (virtual nodes per physical
node), `ring` (the `_ring` dict from position to node id) and `sorted_keys`
(`_sorted_keys`, ascending positions, duplicates retained). -/
structure ConsistentHashRing where
  replicas : Nat
  ring : List (Nat × String)
  sorted_keys : List Nat
deriving DecidableEq

/-- One iteration of the loop in `add_node` (`hash_ring.py` lines 20-24):
hash `f"{node}:{i}"`, assign `_ring[h] = node`, `bisect.insort(_sorted_keys, h)`. -/
def addVirtualNode (node : String) (S : ConsistentHashRing) (i : Nat) : ConsistentHashRing :=
  { S with ring := dictInsert S.ring (md5hash32 (node ++ ":" ++ toString i)) node,
           sorted_keys := insort S.sorted_keys (md5hash32 (node ++ ":" ++ toString i)) }

/-- `ConsistentHashRing.add_node` (`hash_ring.py` lines 18-24). -/
def ConsistentHashRing.add_node (S : ConsistentHashRing) (node : String) : ConsistentHashRing :=
  (List.range S.replicas).foldl (addVirtualNode node) S

/-- `ConsistentHashRing.__init__` (`hash_ring.py` lines 8-16): start empty and
`add_node` each element of `nodes` in order.  The source's default for
`replicas` is 256. -/
def mkRing (nodes : List String) (replicas : Nat) : ConsistentHashRing :=
  nodes.foldl ConsistentHashRing.add_node ⟨replicas, [], []⟩

/-- The clockwise walk of `get_nodes` (`hash_ring.py` lines 47-61):
`while len(nodes) < replica_count`, wrap `idx` at the end of `_sorted_keys`,
look the position up in `_ring`, and append the node if unseen.  The walk is
structural on explicit fuel; callers pass `sorted_keys.length`, which bounds
the iterations the source loop can make, because one full cycle over
`_sorted_keys` visits every key of `_ring` and hence collects every distinct
value, and `replica_count` has already been clamped to the number of distinct
values.  (`_ring[node_hash]` cannot miss in the source; the `getD`
defaults are unreachable for rings built by `mkRing`.) -/
def ringWalk (d : List (Nat × String)) (keys : List Nat) (rc : Nat) :
    Nat → Nat → List String → List String
  | 0, _, ns => ns
  | fuel + 1, idx, ns =>
    if ns.length < rc then
      let idx' := if idx = keys.length then 0 else idx
      let node := (dictGet d (keys.getD idx' 0)).getD ""
      ringWalk d keys rc fuel (idx' + 1) (if node ∈ ns then ns else ns ++ [node])
    else ns

/-- `ConsistentHashRing.get_nodes` (`hash_ring.py` lines 32-61): empty guard,
clamp `replica_count` to the number of distinct `_ring` values, binary-search
the key's hash, then walk clockwise collecting distinct nodes. -/
def ConsistentHashRing.get_nodes (S : ConsistentHashRing) (key : String)
    (replica_count : Nat) : List String :=
  if S.ring = [] ∨ replica_count = 0 then []
  else
    let uniqueCount := (S.ring.map Prod.snd).dedup.length
    let rc := if replica_count > uniqueCount then uniqueCount else replica_count
    ringWalk S.ring S.sorted_keys rc S.sorted_keys.length
      (bisectLeft S.sorted_keys (md5hash32 key)) []

/-- `ConsistentHashRing.get_node` (`hash_ring.py` lines 26-29). -/
def ConsistentHashRing.get_node (S : ConsistentHashRing) (key : String) : Option String :=
  match S.get_nodes key 1 with
  | [] => none
  | n :: _ => some n

/-- The ring's entries as the spec views them: each position of
`sorted_keys` paired with the node the `_ring` dict currently assigns it. -/
def ringEntries (S : ConsistentHashRing) : List (Nat × Option String) :=
  S.sorted_keys.map (fun h => (h, dictGet S.ring h))

/-! ### The coordinator/replica engine (`server.py`) -/

/-- `REPLICATION_FACTOR = 3` (`server.py` line 21). -/
def REPLICATION_FACTOR : Nat := 3

/-- `cache_pb2.SetRequest`: a key and an opaque byte value. -/
structure SetRequest where
  key : String
  value : List Nat
deriving DecidableEq

/-- `cache_pb2.SetResponse`. -/
structure SetResponse where
  success : Bool
deriving DecidableEq

/-- `cache_pb2.GetResponse`; proto3 defaults give `value = b""` when only
`found` is set. -/
structure GetResponse where
  value : List Nat
  found : Bool
deriving DecidableEq

/-- An observable I/O effect issued by a handler: a write to the local
in-memory store (`self.data[key] = value`), an outbound peer `Set` RPC with
its metadata, a PostgreSQL upsert (`self.db_pool.execute(...)`), or the legacy
HTTP GET with its timeout in seconds. -/
inductive Effect where
  | localPut (key : String) (value : List Nat)
  | peerSet (target : String) (key : String) (value : List Nat)
      (metadata : List (String × String))
  | dbUpsert (key : String) (value : List Nat)
  | legacyGet (url : String) (timeoutSecs : Nat)
deriving DecidableEq

/-- The modelled state of `CacheServiceServicer` (`server.py` lines 54-62):
the in-memory store `self.data`, the node's own identity, the hash ring built
at startup, and whether the PostgreSQL pool was initialised (`self.db_pool`
truthiness; pool creation may fail soft at startup). -/
structure CacheServiceServicer where
  data : List (String × List Nat)
  my_address : String
  ring : ConsistentHashRing
  dbEnabled : Bool
deriving DecidableEq

/-- `asyncio.gather(*tasks)` at the join barrier: succeeds when every task
result is a success, otherwise propagates a failing task's error. -/
def gatherResults (rs : List (Except String Unit)) : Except String Unit :=
  match rs with
  | [] => .ok ()
  | .ok () :: rest => gatherResults rest
  | .error e :: _ => .error e

deriving instance DecidableEq for Except

/-- Result of a `Set` call: the response or raised error, the store contents
afterwards, and the trace of issued effects. -/
structure SetOutcome where
  result : Except String SetResponse
  data : List (String × List Nat)
  trace : List Effect
deriving DecidableEq

/-- One iteration of the fan-out loop (`server.py` lines 98-104): a target
equal to the node's own address gets an inline local write; any other target
gets one peer `Set` RPC carrying `is-replication: true`, whose completion is
queued for the gather barrier.  The accumulator carries (store, trace, queued
task results). -/
def coordStep (my : String) (key : String) (value : List Nat)
    (peerOutcome : String → Except String Unit)
    (acc : List (String × List Nat) × List Effect × List (Except String Unit))
    (node : String) :
    List (String × List Nat) × List Effect × List (Except String Unit) :=
  if node = my then
    (dictInsert acc.1 key value, acc.2.1 ++ [Effect.localPut key value], acc.2.2)
  else
    (acc.1, acc.2.1 ++ [Effect.peerSet node key value [("is-replication", "true")]],
     acc.2.2 ++ [peerOutcome node])

/-- `CacheServiceServicer.Set` (`server.py` lines 70-108).  `metadata` is the
request's invocation metadata; `peerOutcome` gives the completion result of
the (at most one) peer `Set` RPC per target address; `dbOutcome` gives the
completion result of the persistence task when the pool is enabled.

The source first checks `any(k == 'is-replication' for k, v in metadata)` —
the metadata *key* alone, not its value.  On the replica path it writes the
local store and returns success.  On the coordinator path it queues the
persistence task (if the pool is enabled), runs the fan-out loop, awaits all
queued tasks, and returns success only if every task succeeded; a failing
gather re-raises the task's error to the caller and nothing is rolled back. -/
def CacheServiceServicer.Set (S : CacheServiceServicer) (request : SetRequest)
    (metadata : List (String × String))
    (peerOutcome : String → Except String Unit)
    (dbOutcome : Except String Unit) : SetOutcome :=
  let key := request.key
  let is_replication_request := metadata.any (fun kv => kv.1 == "is-replication")
  if is_replication_request then
    { result := .ok ⟨true⟩, data := dictInsert S.data key request.value,
      trace := [Effect.localPut key request.value] }
  else
    let target_nodes := S.ring.get_nodes key REPLICATION_FACTOR
    let dbTrace : List Effect :=
      if S.dbEnabled then [Effect.dbUpsert key request.value] else []
    let dbResults : List (Except String Unit) :=
      if S.dbEnabled then [dbOutcome] else []
    let r := target_nodes.foldl (coordStep S.my_address key request.value peerOutcome)
      (S.data, [], [])
    match gatherResults (dbResults ++ r.2.2) with
    | .ok _ => { result := .ok ⟨true⟩, data := r.1, trace := dbTrace ++ r.2.1 }
    | .error e => { result := .error e, data := r.1, trace := dbTrace ++ r.2.1 }

/-- The observable outcome of the legacy HTTP GET in `Get`'s slow path:
either a response with a status code and the JSON body's `value` field
(`none` when the body is not JSON, has no `'value'` key, or its value is not a
string — each of which raises inside the `try` in the source), or `exn` for a
timeout/transport error raised by the client call itself. -/
inductive LegacyOutcome where
  | response (status : Nat) (jsonValue : Option String)
  | exn
deriving DecidableEq

/-- Result of a `Get` call: the response, the store contents afterwards, and
the trace of issued effects. -/
structure GetOutcome where
  response : GetResponse
  data : List (String × List Nat)
  trace : List Effect
deriving DecidableEq

/-- `CacheServiceServicer.Get` (`server.py` lines 111-136).  Fast path: the
local store, where `self.data.get(key)` distinguishes a missing key (`None`)
from a stored empty value.  Slow path: the legacy HTTP GET with a 1-second
timeout; HTTP 200 with a well-formed JSON body returns the UTF-8 bytes of the
`value` field with `found=true`; any other status, a malformed body, or a
raised exception falls through to `found=false`.  The handler never raises
and never writes the store. -/
def CacheServiceServicer.Get (S : CacheServiceServicer) (key : String)
    (legacy : LegacyOutcome) : GetOutcome :=
  match dictGet S.data key with
  | some v => { response := ⟨v, true⟩, data := S.data, trace := [] }
  | none =>
    let trace := [Effect.legacyGet ("http://legacy_api:8001/legacy/data/" ++ key) 1]
    match legacy with
    | .response status jsonValue =>
      if status = 200 then
        match jsonValue with
        | some s => { response := ⟨strBytes s, true⟩, data := S.data, trace := trace }
        | none => { response := ⟨[], false⟩, data := S.data, trace := trace }
      else { response := ⟨[], false⟩, data := S.data, trace := trace }
    | .exn => { response := ⟨[], false⟩, data := S.data, trace := trace }

/-- The read path's fallback contract as the specification words it (used to
compare `Get`'s behaviour against the claim): HTTP 200 with a well-formed
JSON `value` yields the UTF-8 bytes of that value with `found=true`; every
other outcome yields `found=false`. -/
def getFallbackSpec (legacy : LegacyOutcome) : GetResponse :=
  match legacy with
  | .response status (some v) => if status = 200 then ⟨strBytes v, true⟩ else ⟨[], false⟩
  | .response _ none => ⟨[], false⟩
  | .exn => ⟨[], false⟩

/-! ### Lemmas: dict, insort, gather -/

theorem dictGet_dictInsert {κ ν : Type} [DecidableEq κ] (d : List (κ × ν)) (k x : κ) (v : ν) :
    dictGet (dictInsert d k v) x = if k = x then some v else dictGet d x := by
  induction d with
  | nil => simp [dictInsert, dictGet]
  | cons p rest ih =>
    obtain ⟨k', v'⟩ := p
    by_cases hk : k' = k
    · subst hk
      by_cases hx : k' = x <;> simp [dictInsert, dictGet, hx]
    · by_cases hx : k' = x
      · subst hx
        have hkx : ¬ k = k' := fun h => hk h.symm
        simp [dictInsert, dictGet, hk, hkx]
      · simp [dictInsert, dictGet, hk, hx, ih]

theorem mem_dictInsert {κ ν : Type} [DecidableEq κ] (d : List (κ × ν)) (k : κ) (v : ν)
    (p : κ × ν) : p ∈ dictInsert d k v → p ∈ d ∨ p = (k, v) := by
  induction d with
  | nil =>
    intro hp
    right
    simpa [dictInsert] using hp
  | cons q rest ih =>
    obtain ⟨k', v'⟩ := q
    intro hp
    by_cases hk : k' = k
    · subst hk
      rw [show dictInsert ((k', v') :: rest) k' v = (k', v) :: rest by
            simp [dictInsert]] at hp
      rcases List.mem_cons.1 hp with h1 | h1
      · right; exact h1
      · left; exact List.mem_cons_of_mem _ h1
    · rw [show dictInsert ((k', v') :: rest) k v = (k', v') :: dictInsert rest k v by
            simp [dictInsert, hk]] at hp
      rcases List.mem_cons.1 hp with h1 | h1
      · left
        rw [h1]
        exact List.mem_cons_self _ _
      · rcases ih h1 with h2 | h2
        · left; exact List.mem_cons_of_mem _ h2
        · right; exact h2

theorem dictGet_mem {κ ν : Type} [DecidableEq κ] (d : List (κ × ν)) (k : κ) (v : ν) :
    dictGet d k = some v → (k, v) ∈ d := by
  induction d with
  | nil =>
    intro h
    simp [dictGet] at h
  | cons q rest ih =>
    obtain ⟨k', v'⟩ := q
    intro h
    by_cases hk : k' = k
    · subst hk
      simp [dictGet] at h
      rw [← h]
      exact List.mem_cons_self _ _
    · simp only [dictGet, if_neg hk] at h
      exact List.mem_cons_of_mem _ (ih h)

theorem mem_insort (l : List Nat) (y x : Nat) : x ∈ insort l y ↔ x = y ∨ x ∈ l := by
  induction l with
  | nil => simp [insort]
  | cons a t ih =>
    by_cases h : y < a
    · simp [insort, h]
    · simp [insort, h, ih]
      tauto

theorem length_insort (l : List Nat) (y : Nat) : (insort l y).length = l.length + 1 := by
  induction l with
  | nil => simp [insort]
  | cons a t ih => by_cases h : y < a <;> simp [insort, h, ih]

theorem insort_sorted {l : List Nat} (hl : l.Sorted (· ≤ ·)) (y : Nat) :
    (insort l y).Sorted (· ≤ ·) := by
  induction l with
  | nil => simp [insort]
  | cons a t ih =>
    rw [List.sorted_cons] at hl
    by_cases h : y < a
    · rw [insort, if_pos h, List.sorted_cons]
      refine ⟨?_, List.sorted_cons.2 hl⟩
      intro b hb
      rcases List.mem_cons.1 hb with hb | hb
      · exact hb ▸ Nat.le_of_lt h
      · exact Nat.le_trans (Nat.le_of_lt h) (hl.1 b hb)
    · rw [insort, if_neg h, List.sorted_cons]
      refine ⟨?_, ih hl.2⟩
      intro b hb
      rcases (mem_insort t y b).1 hb with hb | hb
      · exact hb ▸ Nat.le_of_not_lt h
      · exact hl.1 b hb

theorem gatherResults_ok_iff (rs : List (Except String Unit)) :
    gatherResults rs = .ok () ↔ ∀ r ∈ rs, r = .ok () := by
  induction rs with
  | nil => simp [gatherResults]
  | cons r rest ih =>
    rcases r with e | u
    · simp [gatherResults]
    · cases u
      simp [gatherResults, ih]

theorem gatherResults_error_mem (rs : List (Except String Unit)) (e : String)
    (h : gatherResults rs = .error e) : Except.error e ∈ rs := by
  induction rs with
  | nil => simp [gatherResults] at h
  | cons r rest ih =>
    rcases r with e' | u
    · simp only [gatherResults, Except.error.injEq] at h
      exact h ▸ List.mem_cons_self _ _
    · cases u
      simp only [gatherResults] at h
      exact List.mem_cons_of_mem _ (ih h)

/-! ### Ring construction invariants -/

/-- Construction invariant of the ring state: every position in `sorted_keys`
is a key of the `_ring` dict, every dict value is an allowed node identity,
and every dict key appears in `sorted_keys`. -/
def RingInv (S : ConsistentHashRing) (allowed : List String) : Prop :=
  (∀ h ∈ S.sorted_keys, ∃ v, dictGet S.ring h = some v) ∧
  (∀ p ∈ S.ring, p.2 ∈ allowed) ∧
  (∀ p ∈ S.ring, p.1 ∈ S.sorted_keys)

theorem ringInv_addVirtualNode {S : ConsistentHashRing} {allowed : List String}
    (hS : RingInv S allowed) {node : String} (hn : node ∈ allowed) (i : Nat) :
    RingInv (addVirtualNode node S i) allowed := by
  obtain ⟨h1, h2, h3⟩ := hS
  refine ⟨?_, ?_, ?_⟩
  · intro h hh
    simp only [addVirtualNode] at hh ⊢
    rw [mem_insort] at hh
    rcases hh with hh | hh
    · exact ⟨node, by rw [dictGet_dictInsert, if_pos hh.symm]⟩
    · obtain ⟨v, hv⟩ := h1 h hh
      by_cases hx : md5hash32 (node ++ ":" ++ toString i) = h
      · exact ⟨node, by rw [dictGet_dictInsert, if_pos hx]⟩
      · exact ⟨v, by rw [dictGet_dictInsert, if_neg hx]; exact hv⟩
  · intro p hp
    simp only [addVirtualNode] at hp
    rcases mem_dictInsert _ _ _ _ hp with hp1 | hp1
    · exact h2 p hp1
    · rw [hp1]; exact hn
  · intro p hp
    simp only [addVirtualNode] at hp ⊢
    rw [mem_insort]
    rcases mem_dictInsert _ _ _ _ hp with hp1 | hp1
    · right; exact h3 p hp1
    · left; rw [hp1]

theorem ringInv_foldl_addVirtualNode {allowed : List String} {node : String}
    (hn : node ∈ allowed) (l : List Nat) :
    ∀ S : ConsistentHashRing, RingInv S allowed →
      RingInv (l.foldl (addVirtualNode node) S) allowed := by
  induction l with
  | nil => intro S hS; exact hS
  | cons i t ih =>
    intro S hS
    exact ih _ (ringInv_addVirtualNode hS hn i)

theorem ringInv_add_node {S : ConsistentHashRing} {allowed : List String}
    (hS : RingInv S allowed) {node : String} (hn : node ∈ allowed) :
    RingInv (S.add_node node) allowed :=
  ringInv_foldl_addVirtualNode hn (List.range S.replicas) S hS

theorem ringInv_mkRing (nodes : List String) (replicas : Nat) :
    RingInv (mkRing nodes replicas) nodes := by
  suffices hgen : ∀ (l : List String) (S : ConsistentHashRing), (∀ n ∈ l, n ∈ nodes) →
      RingInv S nodes → RingInv (l.foldl ConsistentHashRing.add_node S) nodes by
    refine hgen nodes _ (fun n hn => hn) ?_
    refine ⟨?_, ?_, ?_⟩ <;> intro p hp <;> simp at hp
  intro l
  induction l with
  | nil => intro S _ hS; exact hS
  | cons n t ih =>
    intro S hmem hS
    exact ih _ (fun m hm => hmem m (List.mem_cons_of_mem _ hm))
      (ringInv_add_node hS (hmem n (List.mem_cons_self _ _)))

/-- If two lists of positions are related by inclusion, so are the lengths of
their deduplications. -/
theorem dedup_length_le_of_subset {α : Type} [DecidableEq α] {l₁ l₂ : List α}
    (h : l₁ ⊆ l₂) : l₁.dedup.length ≤ l₂.dedup.length := by
  rw [← List.card_toFinset, ← List.card_toFinset]
  exact Finset.card_le_card (fun x hx => List.mem_toFinset.2 (h (List.mem_toFinset.1 hx)))

/-- Invariants of the clockwise walk: starting from a valid index with a
distinct, bounded, allowed accumulator, the walk produces a distinct list of
at most `rc` entries, each an allowed node. -/
theorem ringWalk_props (d : List (Nat × String)) (keys : List Nat) (rc : Nat)
    (allowed : List String)
    (hkeys : keys ≠ [])
    (hdict : ∀ h ∈ keys, ∃ v, dictGet d h = some v)
    (hvals : ∀ p ∈ d, p.2 ∈ allowed) :
    ∀ (fuel idx : Nat) (ns : List String), idx ≤ keys.length →
      ns.Nodup → ns.length ≤ rc → (∀ x ∈ ns, x ∈ allowed) →
      (ringWalk d keys rc fuel idx ns).Nodup ∧
      (ringWalk d keys rc fuel idx ns).length ≤ rc ∧
      (∀ x ∈ ringWalk d keys rc fuel idx ns, x ∈ allowed) := by
  intro fuel
  induction fuel with
  | zero =>
    intro idx ns _ h1 h2 h3
    exact ⟨h1, h2, h3⟩
  | succ fuel ih =>
    intro idx ns hidx h1 h2 h3
    rw [ringWalk]
    by_cases hlen : ns.length < rc
    · rw [if_pos hlen]
      have hidxlt : (if idx = keys.length then 0 else idx) < keys.length := by
        by_cases he : idx = keys.length
        · rw [if_pos he]
          exact List.length_pos.2 hkeys
        · rw [if_neg he]
          omega
      have hkmem : keys.getD (if idx = keys.length then 0 else idx) 0 ∈ keys := by
        rw [List.getD_eq_getElem keys 0 hidxlt]
        exact List.getElem_mem hidxlt
      obtain ⟨v, hv⟩ := hdict _ hkmem
      have hnode : (dictGet d (keys.getD (if idx = keys.length then 0 else idx) 0)).getD "" = v := by
        rw [hv]
        rfl
      have hva : v ∈ allowed := hvals _ (dictGet_mem _ _ _ hv)
      simp only [hnode]
      by_cases hmem : v ∈ ns
      · rw [if_pos hmem]
        exact ih _ ns (by omega) h1 h2 h3
      · rw [if_neg hmem]
        refine ih _ (ns ++ [v]) (by omega) ?_ ?_ ?_
        · simp [List.nodup_append, h1, hmem]
        · simp only [List.length_append, List.length_singleton]
          omega
        · intro x hx
          rcases List.mem_append.1 hx with hx | hx
          · exact h3 x hx
          · rw [List.mem_singleton.1 hx]
            exact hva
    · rw [if_neg hlen]
      exact ⟨h1, h2, h3⟩

/-! ### Claim C1 -/

/-- C1: for every ring constructed from a non-empty list of node identities
(any replica factor, covering the source default 256) and for every key and
requested count `r`, `get_nodes` returns at most `min r (number of distinct
nodes)` entries, all pairwise distinct, and each a member of the constructing
node list. -/
theorem c1_get_nodes_sound (nodes : List String) (replicas : Nat) (hne : nodes ≠ [])
    (key : String) (r : Nat) :
    ((mkRing nodes replicas).get_nodes key r).Nodup ∧
    ((mkRing nodes replicas).get_nodes key r).length ≤ min r nodes.dedup.length ∧
    (∀ x ∈ (mkRing nodes replicas).get_nodes key r, x ∈ nodes) := by
  obtain ⟨h1, h2, h3⟩ := ringInv_mkRing nodes replicas
  by_cases hguard : (mkRing nodes replicas).ring = [] ∨ r = 0
  · rw [ConsistentHashRing.get_nodes, if_pos hguard]
    simp
  · push_neg at hguard
    obtain ⟨hring, hr⟩ := hguard
    have hun : (mkRing nodes replicas).get_nodes key r =
        ringWalk (mkRing nodes replicas).ring (mkRing nodes replicas).sorted_keys
          (if r > ((mkRing nodes replicas).ring.map Prod.snd).dedup.length
            then ((mkRing nodes replicas).ring.map Prod.snd).dedup.length else r)
          (mkRing nodes replicas).sorted_keys.length
          (bisectLeft (mkRing nodes replicas).sorted_keys (md5hash32 key)) [] := by
      rw [ConsistentHashRing.get_nodes, if_neg (by push_neg; exact ⟨hring, hr⟩)]
    obtain ⟨hp, hpm⟩ := List.exists_mem_of_ne_nil _ hring
    have hkeys : (mkRing nodes replicas).sorted_keys ≠ [] := List.ne_nil_of_mem (h3 hp hpm)
    have hwalk := ringWalk_props (mkRing nodes replicas).ring
      (mkRing nodes replicas).sorted_keys
      (if r > ((mkRing nodes replicas).ring.map Prod.snd).dedup.length
        then ((mkRing nodes replicas).ring.map Prod.snd).dedup.length else r)
      nodes hkeys h1 h2 (mkRing nodes replicas).sorted_keys.length
      (bisectLeft (mkRing nodes replicas).sorted_keys (md5hash32 key)) []
      (List.findIdx_le_length _) List.nodup_nil (Nat.zero_le _) (by simp)
    have huniq : ((mkRing nodes replicas).ring.map Prod.snd).dedup.length ≤
        nodes.dedup.length := by
      apply dedup_length_le_of_subset
      intro x hx
      obtain ⟨p, hpmem, hpx⟩ := List.mem_map.1 hx
      exact hpx ▸ h2 p hpmem
    rw [hun]
    refine ⟨hwalk.1, ?_, hwalk.2.2⟩
    refine Nat.le_min.2 ⟨?_, ?_⟩
    · refine le_trans hwalk.2.1 ?_
      by_cases hc : r > ((mkRing nodes replicas).ring.map Prod.snd).dedup.length
      · rw [if_pos hc]; omega
      · rw [if_neg hc]
    · refine le_trans hwalk.2.1 ?_
      by_cases hc : r > ((mkRing nodes replicas).ring.map Prod.snd).dedup.length
      · rw [if_pos hc]; exact huniq
      · rw [if_neg hc]; omega

/-- Witness for C1 at a concrete input. -/
theorem c1_get_nodes_sound_witness :
    (["node1:50051"] : List String) ≠ [] ∧
    (((mkRing ["node1:50051"] 1).get_nodes "my_special_key" 2).Nodup ∧
     ((mkRing ["node1:50051"] 1).get_nodes "my_special_key" 2).length ≤
       min 2 (["node1:50051"] : List String).dedup.length ∧
     (∀ x ∈ (mkRing ["node1:50051"] 1).get_nodes "my_special_key" 2,
       x ∈ (["node1:50051"] : List String))) :=
  ⟨by decide, c1_get_nodes_sound ["node1:50051"] 1 (by decide) "my_special_key" 2⟩

/-! ### Ring length and sortedness -/

theorem foldl_addVirtualNode_replicas (node : String) (l : List Nat) :
    ∀ S : ConsistentHashRing, (l.foldl (addVirtualNode node) S).replicas = S.replicas := by
  induction l with
  | nil => intro S; rfl
  | cons i t ih =>
    intro S
    rw [List.foldl_cons, ih]
    rfl

theorem add_node_replicas (S : ConsistentHashRing) (node : String) :
    (S.add_node node).replicas = S.replicas :=
  foldl_addVirtualNode_replicas node (List.range S.replicas) S

theorem foldl_addVirtualNode_sorted_keys_length (node : String) (l : List Nat) :
    ∀ S : ConsistentHashRing,
      (l.foldl (addVirtualNode node) S).sorted_keys.length =
        S.sorted_keys.length + l.length := by
  induction l with
  | nil => intro S; simp
  | cons i t ih =>
    intro S
    rw [List.foldl_cons, ih]
    simp only [addVirtualNode, length_insort, List.length_cons]
    omega

theorem add_node_sorted_keys_length (S : ConsistentHashRing) (node : String) :
    (S.add_node node).sorted_keys.length = S.sorted_keys.length + S.replicas := by
  rw [ConsistentHashRing.add_node, foldl_addVirtualNode_sorted_keys_length]
  simp

theorem mkRing_sorted_keys_length (nodes : List String) (replicas : Nat) :
    (mkRing nodes replicas).sorted_keys.length = replicas * nodes.length := by
  suffices hgen : ∀ (l : List String) (S : ConsistentHashRing), S.replicas = replicas →
      (l.foldl ConsistentHashRing.add_node S).sorted_keys.length =
        S.sorted_keys.length + replicas * l.length by
    have h := hgen nodes ⟨replicas, [], []⟩ rfl
    simpa using h
  intro l
  induction l with
  | nil => intro S _; simp
  | cons n t ih =>
    intro S hS
    rw [List.foldl_cons, ih _ (by rw [add_node_replicas, hS]),
      add_node_sorted_keys_length, hS, List.length_cons]
    ring

theorem foldl_addVirtualNode_sorted (node : String) (l : List Nat) :
    ∀ S : ConsistentHashRing, S.sorted_keys.Sorted (· ≤ ·) →
      (l.foldl (addVirtualNode node) S).sorted_keys.Sorted (· ≤ ·) := by
  induction l with
  | nil => intro S hS; exact hS
  | cons i t ih =>
    intro S hS
    rw [List.foldl_cons]
    exact ih _ (insort_sorted hS _)

theorem add_node_sorted (S : ConsistentHashRing) (node : String)
    (hS : S.sorted_keys.Sorted (· ≤ ·)) :
    (S.add_node node).sorted_keys.Sorted (· ≤ ·) :=
  foldl_addVirtualNode_sorted node (List.range S.replicas) S hS

theorem mkRing_sorted (nodes : List String) (replicas : Nat) :
    (mkRing nodes replicas).sorted_keys.Sorted (· ≤ ·) := by
  suffices hgen : ∀ (l : List String) (S : ConsistentHashRing), S.sorted_keys.Sorted (· ≤ ·) →
      (l.foldl ConsistentHashRing.add_node S).sorted_keys.Sorted (· ≤ ·) by
    exact hgen nodes ⟨replicas, [], []⟩ List.sorted_nil
  intro l
  induction l with
  | nil => intro S hS; exact hS
  | cons n t ih =>
    intro S hS
    exact ih _ (add_node_sorted S n hS)

/-! ### Claim C7 -/

/-- C7 (amended): after constructing a ring from distinct node identities
with the source's 256 virtual nodes per node, the sorted position sequence is
non-decreasing and has length exactly `256 × (number of distinct nodes)` —
position collisions are retained as duplicate positions in `sorted_keys`
rather than deduplicated.  (The position→node *dict*, however, keeps only the
most recently added node on a collision; see the counterexample.) -/
theorem c7_sorted_keys_invariants (nodes : List String) (hnd : nodes.Nodup) :
    (mkRing nodes 256).sorted_keys.Sorted (· ≤ ·) ∧
    (mkRing nodes 256).sorted_keys.length = 256 * nodes.dedup.length := by
  refine ⟨mkRing_sorted nodes 256, ?_⟩
  rw [mkRing_sorted_keys_length, List.dedup_eq_self.2 hnd]

/-- Witness for the amended C7 at a concrete input. -/
theorem c7_sorted_keys_invariants_witness :
    (["node1:50051", "node2:50052"] : List String).Nodup ∧
    ((mkRing ["node1:50051", "node2:50052"] 256).sorted_keys.Sorted (· ≤ ·) ∧
     (mkRing ["node1:50051", "node2:50052"] 256).sorted_keys.length =
       256 * (["node1:50051", "node2:50052"] : List String).dedup.length) :=
  ⟨by decide, c7_sorted_keys_invariants ["node1:50051", "node2:50052"] (by decide)⟩

/-- Inserting value `node` along a fold of virtual-node additions pins the
dict entry at `h` to `node` as soon as one virtual key of `node` hashes to
`h`; later insertions by the same fold never change it away from `node`. -/
theorem dictGet_foldl_addVirtualNode (node : String) (l : List Nat) :
    ∀ (S : ConsistentHashRing) (h : Nat),
      ((∃ j ∈ l, md5hash32 (node ++ ":" ++ toString j) = h) ∨
        dictGet S.ring h = some node) →
      dictGet ((l.foldl (addVirtualNode node) S)).ring h = some node := by
  induction l with
  | nil =>
    intro S h hyp
    rcases hyp with ⟨j, hj, _⟩ | hyp
    · simp at hj
    · exact hyp
  | cons i t ih =>
    intro S h hyp
    rw [List.foldl_cons]
    apply ih
    by_cases hi : md5hash32 (node ++ ":" ++ toString i) = h
    · right
      simp only [addVirtualNode]
      rw [dictGet_dictInsert, if_pos hi]
    · rcases hyp with ⟨j, hj, hjh⟩ | hyp
      · rcases List.mem_cons.1 hj with hj1 | hj1
        · exact absurd (hj1 ▸ hjh) hi
        · exact Or.inl ⟨j, hj1, hjh⟩
      · right
        simp only [addVirtualNode]
        rw [dictGet_dictInsert, if_neg hi]
        exact hyp

/-- After `add_node`, a position hit by one of the added node's virtual keys
maps to that node in the `_ring` dict. -/
theorem add_node_dictGet (S : ConsistentHashRing) (node : String) (h j : Nat)
    (hj : j < S.replicas) (hh : md5hash32 (node ++ ":" ++ toString j) = h) :
    dictGet (S.add_node node).ring h = some node :=
  dictGet_foldl_addVirtualNode node (List.range S.replicas) S h
    (Or.inl ⟨j, List.mem_range.2 hj, hh⟩)

/-- An entry `(h, some w)` is absent from a ring's entry view whenever the
dict maps `h` to a different node. -/
theorem notMem_ringEntries (S : ConsistentHashRing) (h : Nat) (v w : String)
    (hv : dictGet S.ring h = some v) (hvw : v ≠ w) :
    (h, some w) ∉ ringEntries S := by
  intro hmem
  rw [ringEntries] at hmem
  obtain ⟨p, hpmem, hpe⟩ := List.mem_map.1 hmem
  have hp1 : p = h := (Prod.ext_iff.1 hpe).1
  have hp2 : dictGet S.ring p = some w := (Prod.ext_iff.1 hpe).2
  rw [hp1, hv] at hp2
  exact hvw (Option.some.inj hp2)

/-- C7 (counterexample): the distinct node identities `n240` and `n647`
produce an MD5 position collision — virtual key 143 of `n240` and virtual key
249 of `n647` both hash to 1294817478 — and in the ring constructed from
`[n240, n647]` with the default 256 virtual nodes the `_ring` dict maps that
position to `n647` only: the colliding `(position, n240)` entry has been
overwritten and is not retained among the ring's entries, contradicting the
claim that colliding entries are retained rather than overwritten. -/
theorem c7_collision_counterexample :
    ("n240" : String) ≠ "n647" ∧
    md5hash32 ("n240" ++ ":" ++ toString (143 : Nat)) =
      md5hash32 ("n647" ++ ":" ++ toString (249 : Nat)) ∧
    (143 : Nat) < 256 ∧ (249 : Nat) < 256 ∧
    dictGet (mkRing ["n240", "n647"] 256).ring
      (md5hash32 ("n240" ++ ":" ++ toString (143 : Nat))) = some "n647" ∧
    (md5hash32 ("n240" ++ ":" ++ toString (143 : Nat)), some "n240") ∉
      ringEntries (mkRing ["n240", "n647"] 256) := by
  have h240 : md5hash32 ("n240" ++ ":" ++ toString (143 : Nat)) = 1294817478 := by decide
  have h647 : md5hash32 ("n647" ++ ":" ++ toString (249 : Nat)) = 1294817478 := by decide
  have hmk : mkRing ["n240", "n647"] 256 =
      (ConsistentHashRing.add_node ⟨256, [], []⟩ "n240").add_node "n647" := by
    rw [mkRing, List.foldl_cons, List.foldl_cons, List.foldl_nil]
  have hrepl : (ConsistentHashRing.add_node ⟨256, [], []⟩ "n240").replicas = 256 :=
    add_node_replicas _ _
  have hget : dictGet (mkRing ["n240", "n647"] 256).ring 1294817478 = some "n647" := by
    rw [hmk]
    exact add_node_dictGet _ "n647" 1294817478 249 (by rw [hrepl]; omega) h647
  refine ⟨by decide, by rw [h240, h647], by omega, by omega, by rw [h240]; exact hget, ?_⟩
  rw [h240]
  exact notMem_ringEntries _ 1294817478 "n647" "n240" hget (by decide)

/-! ### Fan-out loop lemmas -/

theorem coordStep_foldl_trace (my key : String) (value : List Nat)
    (po : String → Except String Unit) (l : List String) :
    ∀ (d0 : List (String × List Nat)) (t0 : List Effect) (rs0 : List (Except String Unit)),
      (l.foldl (coordStep my key value po) (d0, t0, rs0)).2.1 =
        t0 ++ l.map (fun t => if t = my then Effect.localPut key value
          else Effect.peerSet t key value [("is-replication", "true")]) := by
  induction l with
  | nil =>
    intro d0 t0 rs0
    simp
  | cons a t ih =>
    intro d0 t0 rs0
    rw [List.foldl_cons, List.map_cons]
    by_cases ha : a = my
    · simp only [coordStep, if_pos ha, ih]
      simp
    · simp only [coordStep, if_neg ha, ih]
      simp

theorem coordStep_foldl_data (my key : String) (value : List Nat)
    (po : String → Except String Unit) (l : List String) :
    ∀ acc : List (String × List Nat) × List Effect × List (Except String Unit),
      (my ∈ l → dictGet (l.foldl (coordStep my key value po) acc).1 key = some value) ∧
      (my ∉ l → (l.foldl (coordStep my key value po) acc).1 = acc.1) := by
  induction l with
  | nil =>
    intro acc
    exact ⟨fun h => absurd h (List.not_mem_nil _), fun _ => rfl⟩
  | cons a t ih =>
    intro acc
    rw [List.foldl_cons]
    constructor
    · intro hmem
      rcases List.mem_cons.1 hmem with h | h
      · by_cases hmt : my ∈ t
        · exact (ih _).1 hmt
        · rw [(ih _).2 hmt]
          simp only [coordStep, if_pos h.symm]
          rw [dictGet_dictInsert, if_pos rfl]
      · exact (ih _).1 h
    · intro hmem
      rw [List.mem_cons] at hmem
      push_neg at hmem
      rw [(ih _).2 hmem.2]
      have ha : ¬ a = my := fun he => hmem.1 (he.symm)
      simp only [coordStep, if_neg ha]

theorem coordStep_foldl_results_mono (my key : String) (value : List Nat)
    (po : String → Except String Unit) (l : List String) :
    ∀ acc, ∀ x ∈ acc.2.2, x ∈ (l.foldl (coordStep my key value po) acc).2.2 := by
  induction l with
  | nil =>
    intro acc x hx
    exact hx
  | cons a t ih =>
    intro acc x hx
    rw [List.foldl_cons]
    refine ih _ x ?_
    by_cases ha : a = my
    · simp only [coordStep, if_pos ha]
      exact hx
    · simp only [coordStep, if_neg ha]
      exact List.mem_append_left _ hx

theorem coordStep_foldl_results_mem (my key : String) (value : List Nat)
    (po : String → Except String Unit) (l : List String) :
    ∀ acc, ∀ t ∈ l, t ≠ my →
      po t ∈ (l.foldl (coordStep my key value po) acc).2.2 := by
  induction l with
  | nil =>
    intro acc t ht
    exact absurd ht (List.not_mem_nil _)
  | cons a ts ih =>
    intro acc t ht htm
    rw [List.foldl_cons]
    rcases List.mem_cons.1 ht with h | h
    · subst h
      refine coordStep_foldl_results_mono my key value po ts _ _ ?_
      simp only [coordStep, if_neg htm]
      exact List.mem_append_right _ (List.mem_singleton.2 rfl)
    · exact ih _ t h htm

theorem coordStep_foldl_results_sub (my key : String) (value : List Nat)
    (po : String → Except String Unit) (l : List String) :
    ∀ acc, ∀ x ∈ (l.foldl (coordStep my key value po) acc).2.2,
      x ∈ acc.2.2 ∨ ∃ t ∈ l, t ≠ my ∧ x = po t := by
  induction l with
  | nil =>
    intro acc x hx
    exact Or.inl hx
  | cons a ts ih =>
    intro acc x hx
    rw [List.foldl_cons] at hx
    rcases ih _ x hx with hin | ⟨t, ht, htm, hte⟩
    · by_cases ha : a = my
      · simp only [coordStep, if_pos ha] at hin
        exact Or.inl hin
      · simp only [coordStep, if_neg ha] at hin
        rcases List.mem_append.1 hin with h | h
        · exact Or.inl h
        · exact Or.inr ⟨a, List.mem_cons_self _ _, ha, List.mem_singleton.1 h⟩
    · exact Or.inr ⟨t, List.mem_cons_of_mem _ ht, htm, hte⟩

/-! ### Claim C2 -/

/-- C2: a `Set` whose metadata contains the replication marker
`("is-replication", "true")` writes the key/value pair to the local store,
returns success, and changes nothing else — its whole effect trace is that
single local write, so it issues no outbound peer RPC and no database
write. -/
theorem c2_replica_set (S : CacheServiceServicer) (request : SetRequest)
    (metadata : List (String × String)) (peerOutcome : String → Except String Unit)
    (dbOutcome : Except String Unit)
    (hmarker : ("is-replication", "true") ∈ metadata) :
    CacheServiceServicer.Set S request metadata peerOutcome dbOutcome =
      { result := .ok ⟨true⟩, data := dictInsert S.data request.key request.value,
        trace := [Effect.localPut request.key request.value] } ∧
    (∀ t k v m, Effect.peerSet t k v m ∉
      (CacheServiceServicer.Set S request metadata peerOutcome dbOutcome).trace) ∧
    (∀ k v, Effect.dbUpsert k v ∉
      (CacheServiceServicer.Set S request metadata peerOutcome dbOutcome).trace) := by
  have hb : metadata.any (fun kv => kv.1 == "is-replication") = true :=
    List.any_eq_true.2 ⟨("is-replication", "true"), hmarker, by decide⟩
  have he : CacheServiceServicer.Set S request metadata peerOutcome dbOutcome =
      { result := .ok ⟨true⟩, data := dictInsert S.data request.key request.value,
        trace := [Effect.localPut request.key request.value] } := by
    simp [CacheServiceServicer.Set, hb]
  refine ⟨he, ?_, ?_⟩
  · intro t k v m
    rw [he]
    simp
  · intro k v
    rw [he]
    simp

/-- Witness for C2 at a concrete input. -/
theorem c2_replica_set_witness :
    (("is-replication", "true") ∈ ([("is-replication", "true")] : List (String × String))) ∧
    (CacheServiceServicer.Set ⟨[], "node1:50051", ⟨256, [], []⟩, true⟩ ⟨"k", [1, 2]⟩
        [("is-replication", "true")] (fun _ => .ok ()) (.ok ()) =
      { result := .ok ⟨true⟩, data := dictInsert [] "k" [1, 2],
        trace := [Effect.localPut "k" [1, 2]] } ∧
    (∀ t k v m, Effect.peerSet t k v m ∉
      (CacheServiceServicer.Set ⟨[], "node1:50051", ⟨256, [], []⟩, true⟩ ⟨"k", [1, 2]⟩
        [("is-replication", "true")] (fun _ => .ok ()) (.ok ())).trace) ∧
    (∀ k v, Effect.dbUpsert k v ∉
      (CacheServiceServicer.Set ⟨[], "node1:50051", ⟨256, [], []⟩, true⟩ ⟨"k", [1, 2]⟩
        [("is-replication", "true")] (fun _ => .ok ()) (.ok ())).trace)) :=
  ⟨by decide, c2_replica_set ⟨[], "node1:50051", ⟨256, [], []⟩, true⟩ ⟨"k", [1, 2]⟩
    [("is-replication", "true")] (fun _ => .ok ()) (.ok ()) (by decide)⟩

/-! ### Result shape of `Set` -/

/-- Every `Set` result is either a success response `{success: true}` or a
raised error: the handler never constructs a response with
`success = false`. -/
theorem set_result_shape (S : CacheServiceServicer) (request : SetRequest)
    (metadata : List (String × String)) (peerOutcome : String → Except String Unit)
    (dbOutcome : Except String Unit) :
    (CacheServiceServicer.Set S request metadata peerOutcome dbOutcome).result =
      .ok ⟨true⟩ ∨
    ∃ e, (CacheServiceServicer.Set S request metadata peerOutcome dbOutcome).result =
      .error e := by
  by_cases hb : metadata.any (fun kv => kv.1 == "is-replication") = true
  · left
    simp [CacheServiceServicer.Set, hb]
  · rw [Bool.not_eq_true] at hb
    simp only [CacheServiceServicer.Set, hb, Bool.false_eq_true, if_false]
    rcases hg : gatherResults
        ((if S.dbEnabled then [dbOutcome] else []) ++
          ((S.ring.get_nodes request.key REPLICATION_FACTOR).foldl
            (coordStep S.my_address request.key request.value peerOutcome)
            (S.data, [], [])).2.2) with e | u
    · right
      exact ⟨e, rfl⟩
    · left
      cases u
      rfl

/-! ### Claim C9 -/

/-- C9: whenever the `Set` handler returns a response at all — replica path or
coordinator path — that response has `success = true`; a `success = false`
response is never produced, every failure being a raised error instead. -/
theorem c9_set_success_only (S : CacheServiceServicer) (request : SetRequest)
    (metadata : List (String × String)) (peerOutcome : String → Except String Unit)
    (dbOutcome : Except String Unit) (resp : SetResponse)
    (h : (CacheServiceServicer.Set S request metadata peerOutcome dbOutcome).result =
      .ok resp) :
    resp.success = true := by
  rcases set_result_shape S request metadata peerOutcome dbOutcome with hs | ⟨e, hs⟩
  · rw [hs] at h
    cases Except.ok.inj h
    rfl
  · rw [hs] at h
    exact absurd h (by simp)

/-- Witness for C9 at a concrete input (replica path). -/
theorem c9_set_success_only_witness :
    (CacheServiceServicer.Set ⟨[], "node1:50051", ⟨256, [], []⟩, false⟩ ⟨"k", [1]⟩
        [("is-replication", "true")] (fun _ => .ok ()) (.ok ())).result =
      .ok ⟨true⟩ ∧
    (⟨true⟩ : SetResponse).success = true :=
  ⟨by decide, c9_set_success_only ⟨[], "node1:50051", ⟨256, [], []⟩, false⟩ ⟨"k", [1]⟩
    [("is-replication", "true")] (fun _ => .ok ()) (.ok ()) ⟨true⟩ (by decide)⟩

/-! ### Claim C4 -/

/-- C4: a coordinator `Set` (no replication marker) issues exactly one write
attempt per entry of `get_nodes(key, 3)` — an inline local-store put when the
target is the node's own address, otherwise exactly one peer `Set` RPC
carrying `is-replication: true` — plus exactly one persistence attempt when
the database pool is enabled and none when it is disabled.  The trace is
exactly that list, in program order. -/
theorem c4_coordinator_fanout (S : CacheServiceServicer) (request : SetRequest)
    (metadata : List (String × String)) (peerOutcome : String → Except String Unit)
    (dbOutcome : Except String Unit)
    (hcoord : metadata.any (fun kv => kv.1 == "is-replication") = false) :
    (CacheServiceServicer.Set S request metadata peerOutcome dbOutcome).trace =
      (if S.dbEnabled then [Effect.dbUpsert request.key request.value] else []) ++
      (S.ring.get_nodes request.key REPLICATION_FACTOR).map
        (fun t => if t = S.my_address then Effect.localPut request.key request.value
          else Effect.peerSet t request.key request.value
            [("is-replication", "true")]) := by
  simp only [CacheServiceServicer.Set, hcoord, Bool.false_eq_true, if_false]
  rcases hg : gatherResults
      ((if S.dbEnabled then [dbOutcome] else []) ++
        ((S.ring.get_nodes request.key REPLICATION_FACTOR).foldl
          (coordStep S.my_address request.key request.value peerOutcome)
          (S.data, [], [])).2.2) with e | u
  · show ((if S.dbEnabled = true then [Effect.dbUpsert request.key request.value] else []) ++
      ((S.ring.get_nodes request.key REPLICATION_FACTOR).foldl
        (coordStep S.my_address request.key request.value peerOutcome)
        (S.data, [], [])).2.1) = _
    rw [coordStep_foldl_trace]
    simp
  · show ((if S.dbEnabled = true then [Effect.dbUpsert request.key request.value] else []) ++
      ((S.ring.get_nodes request.key REPLICATION_FACTOR).foldl
        (coordStep S.my_address request.key request.value peerOutcome)
        (S.data, [], [])).2.1) = _
    rw [coordStep_foldl_trace]
    simp

/-- Witness for C4 at a concrete input. -/
theorem c4_coordinator_fanout_witness :
    ([] : List (String × String)).any (fun kv => kv.1 == "is-replication") = false ∧
    (CacheServiceServicer.Set ⟨[], "A", ⟨256, [(1, "A"), (2, "B")], [1, 2]⟩, true⟩
        ⟨"k", [7]⟩ [] (fun _ => .ok ()) (.ok ())).trace =
      (if (⟨[], "A", ⟨256, [(1, "A"), (2, "B")], [1, 2]⟩, true⟩ :
          CacheServiceServicer).dbEnabled
        then [Effect.dbUpsert "k" [7]] else []) ++
      ((⟨256, [(1, "A"), (2, "B")], [1, 2]⟩ : ConsistentHashRing).get_nodes "k"
          REPLICATION_FACTOR).map
        (fun t => if t = "A" then Effect.localPut "k" [7]
          else Effect.peerSet t "k" [7] [("is-replication", "true")]) :=
  ⟨by decide, c4_coordinator_fanout ⟨[], "A", ⟨256, [(1, "A"), (2, "B")], [1, 2]⟩, true⟩
    ⟨"k", [7]⟩ [] (fun _ => .ok ()) (.ok ()) (by decide)⟩

/-! ### Claim C3 -/

/-- C3: on the coordinator path (no replication marker), if any peer
replication call or the persistence task fails, the call fails with the
underlying error — it is never reported as success — and there is no
rollback: a self-write applied to the coordinator's local store before the
join barrier is retained even when the call fails (the conclusion about the
store holds whatever the task outcomes were). -/
theorem c3_coordinator_no_partial_success (S : CacheServiceServicer)
    (request : SetRequest) (metadata : List (String × String))
    (peerOutcome : String → Except String Unit) (dbOutcome : Except String Unit)
    (hcoord : metadata.any (fun kv => kv.1 == "is-replication") = false) :
    (((S.dbEnabled = true ∧ dbOutcome ≠ .ok ()) ∨
      (∃ t ∈ S.ring.get_nodes request.key REPLICATION_FACTOR,
        t ≠ S.my_address ∧ peerOutcome t ≠ .ok ())) →
      ∀ resp, (CacheServiceServicer.Set S request metadata peerOutcome dbOutcome).result ≠
        .ok resp) ∧
    (∀ e, (CacheServiceServicer.Set S request metadata peerOutcome dbOutcome).result =
        .error e →
      (S.dbEnabled = true ∧ dbOutcome = .error e) ∨
      (∃ t ∈ S.ring.get_nodes request.key REPLICATION_FACTOR,
        t ≠ S.my_address ∧ peerOutcome t = .error e)) ∧
    (S.my_address ∈ S.ring.get_nodes request.key REPLICATION_FACTOR →
      dictGet (CacheServiceServicer.Set S request metadata peerOutcome dbOutcome).data
        request.key = some request.value) := by
  simp only [CacheServiceServicer.Set, hcoord, Bool.false_eq_true, if_false]
  rcases hg : gatherResults
      ((if S.dbEnabled then [dbOutcome] else []) ++
        ((S.ring.get_nodes request.key REPLICATION_FACTOR).foldl
          (coordStep S.my_address request.key request.value peerOutcome)
          (S.data, [], [])).2.2) with e | u
  · -- gather failed: result is `.error e`
    refine ⟨?_, ?_, ?_⟩
    · intro _ resp hok
      have hok' : (Except.error e : Except String SetResponse) = .ok resp := hok
      exact absurd hok' (by simp)
    · intro e' he'
      have he'' : (Except.error e : Except String SetResponse) = .error e' := he'
      have he : e = e' := Except.error.inj he''
      subst he
      have hmem := gatherResults_error_mem _ e hg
      rcases List.mem_append.1 hmem with hin | hin
      · left
        rcases hdb : S.dbEnabled with _ | _
        · rw [hdb] at hin
          simp at hin
        · rw [hdb] at hin
          simp at hin
          exact ⟨rfl, hin.symm⟩
      · right
        rcases coordStep_foldl_results_sub S.my_address request.key request.value
            peerOutcome _ _ _ hin with h0 | ⟨t, ht, htm, hte⟩
        · simp at h0
        · exact ⟨t, ht, htm, hte.symm⟩
    · intro hself
      exact (coordStep_foldl_data S.my_address request.key request.value
        peerOutcome _ _).1 hself
  · -- gather succeeded: every queued task result is a success
    cases u
    have hall := (gatherResults_ok_iff _).1 hg
    refine ⟨?_, ?_, ?_⟩
    · intro hfail resp _
      rcases hfail with ⟨hdb, hne⟩ | ⟨t, ht, htm, hne⟩
      · refine absurd (hall dbOutcome ?_) hne
        refine List.mem_append_left _ ?_
        rw [hdb]
        exact List.mem_singleton.2 rfl
      · refine absurd (hall (peerOutcome t) ?_) hne
        refine List.mem_append_right _ ?_
        exact coordStep_foldl_results_mem S.my_address request.key request.value
          peerOutcome _ _ t ht htm
    · intro e' he'
      have he'' : (Except.ok ⟨true⟩ : Except String SetResponse) = .error e' := he'
      exact absurd he'' (by simp)
    · intro hself
      exact (coordStep_foldl_data S.my_address request.key request.value
        peerOutcome _ _).1 hself

/-- Witness for C3 at a concrete input: with an unreachable peer, a
coordinator `Set` on a two-node ring cannot return success. -/
theorem c3_coordinator_no_partial_success_witness :
    ([] : List (String × String)).any (fun kv => kv.1 == "is-replication") = false ∧
    ∀ resp, (CacheServiceServicer.Set ⟨[], "A", ⟨256, [(1, "A"), (2, "B")], [1, 2]⟩, true⟩
        ⟨"k", [7]⟩ [] (fun _ => .error "unavailable") (.ok ())).result ≠ .ok resp :=
  ⟨by decide,
   (c3_coordinator_no_partial_success ⟨[], "A", ⟨256, [(1, "A"), (2, "B")], [1, 2]⟩, true⟩
      ⟨"k", [7]⟩ [] (fun _ => .error "unavailable") (.ok ()) (by decide)).1
    (Or.inr ⟨"B", by decide, by decide, by decide⟩)⟩

/-! ### Claim C8 -/

/-- C8 (amended): any metadata entry whose key is `is-replication` —
regardless of its value — suppresses coordinator behaviour on `Set`, because
the source checks only the metadata key; metadata without such a key leaves
the call handled exactly as a coordinator call (identically to a call with no
metadata at all). -/
theorem c8_marker_key_suffices (S : CacheServiceServicer) (request : SetRequest)
    (metadata : List (String × String)) (peerOutcome : String → Except String Unit)
    (dbOutcome : Except String Unit) :
    (metadata.any (fun kv => kv.1 == "is-replication") = true →
      CacheServiceServicer.Set S request metadata peerOutcome dbOutcome =
        { result := .ok ⟨true⟩, data := dictInsert S.data request.key request.value,
          trace := [Effect.localPut request.key request.value] }) ∧
    (metadata.any (fun kv => kv.1 == "is-replication") = false →
      CacheServiceServicer.Set S request metadata peerOutcome dbOutcome =
        CacheServiceServicer.Set S request [] peerOutcome dbOutcome) := by
  constructor
  · intro hb
    simp [CacheServiceServicer.Set, hb]
  · intro hb
    have h0 : ([] : List (String × String)).any
        (fun kv => kv.1 == "is-replication") = false := rfl
    simp only [CacheServiceServicer.Set, hb, h0, Bool.false_eq_true, if_false]

/-- Witness for the amended C8 at a concrete input: the entry
`("is-replication", "false")` already suppresses coordinator behaviour. -/
theorem c8_marker_key_suffices_witness :
    ([("is-replication", "false")] : List (String × String)).any
      (fun kv => kv.1 == "is-replication") = true ∧
    CacheServiceServicer.Set ⟨[], "A", ⟨256, [(1, "A"), (2, "B")], [1, 2]⟩, false⟩
        ⟨"k", [7]⟩ [("is-replication", "false")] (fun _ => .ok ()) (.ok ()) =
      { result := .ok ⟨true⟩, data := dictInsert [] "k" [7],
        trace := [Effect.localPut "k" [7]] } :=
  ⟨by decide,
   (c8_marker_key_suffices ⟨[], "A", ⟨256, [(1, "A"), (2, "B")], [1, 2]⟩, false⟩
      ⟨"k", [7]⟩ [("is-replication", "false")] (fun _ => .ok ()) (.ok ())).1 (by decide)⟩

set_option maxHeartbeats 2000000 in
/-- C8 (counterexample): a `Set` carrying `is-replication` with value
`"false"` is *not* handled as a coordinator call.  On a two-node ring where a
coordinator call fans out a peer RPC to `B`, the call with
`("is-replication", "false")` performs only the local write — its outcome
differs from the coordinator outcome of the same request. -/
theorem c8_value_ignored_counterexample :
    (CacheServiceServicer.Set ⟨[], "A", ⟨256, [(1, "A"), (2, "B")], [1, 2]⟩, false⟩
        ⟨"k", [7]⟩ [("is-replication", "false")] (fun _ => .ok ()) (.ok ())).trace =
      [Effect.localPut "k" [7]] ∧
    (CacheServiceServicer.Set ⟨[], "A", ⟨256, [(1, "A"), (2, "B")], [1, 2]⟩, false⟩
        ⟨"k", [7]⟩ [] (fun _ => .ok ()) (.ok ())).trace =
      [Effect.localPut "k" [7], Effect.peerSet "B" "k" [7] [("is-replication", "true")]] ∧
    CacheServiceServicer.Set ⟨[], "A", ⟨256, [(1, "A"), (2, "B")], [1, 2]⟩, false⟩
        ⟨"k", [7]⟩ [("is-replication", "false")] (fun _ => .ok ()) (.ok ()) ≠
      CacheServiceServicer.Set ⟨[], "A", ⟨256, [(1, "A"), (2, "B")], [1, 2]⟩, false⟩
        ⟨"k", [7]⟩ [] (fun _ => .ok ()) (.ok ()) :=
  ⟨by decide, by decide, by decide⟩

/-! ### Get: store frame -/

/-- `Get` never writes the local store: the store after any `Get` equals the
store before it, in every branch of the handler. -/
theorem get_preserves_data (S : CacheServiceServicer) (key : String)
    (legacy : LegacyOutcome) :
    (CacheServiceServicer.Get S key legacy).data = S.data := by
  rcases hd : dictGet S.data key with _ | v
  · simp only [CacheServiceServicer.Get, hd]
    rcases legacy with ⟨status, jv⟩ | _
    · by_cases hst : status = 200
      · subst hst
        rcases jv with _ | s <;> simp
      · simp [hst]
    · rfl
  · simp [CacheServiceServicer.Get, hd]

/-! ### Claim C6 -/

/-- C6: `Get` never modifies the local store; in particular, after a `Get`
that was a local miss (including one answered from the legacy source), a
local lookup of the same key still misses — there is no read-through cache
population. -/
theorem c6_get_no_cache_population (S : CacheServiceServicer) (key : String)
    (legacy : LegacyOutcome) :
    (CacheServiceServicer.Get S key legacy).data = S.data ∧
    (dictGet S.data key = none →
      dictGet (CacheServiceServicer.Get S key legacy).data key = none) :=
  ⟨get_preserves_data S key legacy,
   fun hm => by rw [get_preserves_data]; exact hm⟩

/-- Witness for C6 at a concrete input: a legacy hit returns the value but a
second local lookup still misses. -/
theorem c6_get_no_cache_population_witness :
    (CacheServiceServicer.Get ⟨[], "A", ⟨0, [], []⟩, false⟩ "user:1001"
        (.response 200 (some "Dr. Heisenberg"))).data = [] ∧
    dictGet (CacheServiceServicer.Get ⟨[], "A", ⟨0, [], []⟩, false⟩ "user:1001"
        (.response 200 (some "Dr. Heisenberg"))).data "user:1001" = none :=
  ⟨(c6_get_no_cache_population ⟨[], "A", ⟨0, [], []⟩, false⟩ "user:1001"
      (.response 200 (some "Dr. Heisenberg"))).1,
   (c6_get_no_cache_population ⟨[], "A", ⟨0, [], []⟩, false⟩ "user:1001"
      (.response 200 (some "Dr. Heisenberg"))).2 (by decide)⟩

/-! ### Claim C5 -/

/-- C5: `Get` never raises for infrastructure reasons (the handler is a total
function into responses).  On a local-store miss it issues exactly one legacy
query with a 1-second timeout, and its response follows the fallback
contract: HTTP 200 with a well-formed JSON `value` yields the UTF-8 bytes of
that value with `found = true`; every other outcome — non-200 status,
timeout or transport error (`exn`), malformed JSON body (`none`) — yields
`found = false`. -/
theorem c5_get_legacy_fallback (S : CacheServiceServicer) (key : String)
    (legacy : LegacyOutcome) (hmiss : dictGet S.data key = none) :
    (CacheServiceServicer.Get S key legacy).response = getFallbackSpec legacy ∧
    (CacheServiceServicer.Get S key legacy).trace =
      [Effect.legacyGet ("http://legacy_api:8001/legacy/data/" ++ key) 1] := by
  simp only [CacheServiceServicer.Get, hmiss]
  rcases legacy with ⟨status, jv⟩ | _
  · rcases jv with _ | s
    · by_cases hst : status = 200
      · subst hst
        simp [getFallbackSpec]
      · simp [getFallbackSpec, hst]
    · by_cases hst : status = 200
      · subst hst
        simp [getFallbackSpec]
      · simp [getFallbackSpec, hst]
  · simp [getFallbackSpec]

/-- Witness for C5 at a concrete input (a legacy 200 hit). -/
theorem c5_get_legacy_fallback_witness :
    dictGet ([] : List (String × List Nat)) "user:1001" = none ∧
    ((CacheServiceServicer.Get ⟨[], "A", ⟨0, [], []⟩, false⟩ "user:1001"
        (.response 200 (some "Dr. Heisenberg"))).response =
      getFallbackSpec (.response 200 (some "Dr. Heisenberg")) ∧
     (CacheServiceServicer.Get ⟨[], "A", ⟨0, [], []⟩, false⟩ "user:1001"
        (.response 200 (some "Dr. Heisenberg"))).trace =
      [Effect.legacyGet ("http://legacy_api:8001/legacy/data/" ++ "user:1001") 1]) :=
  ⟨by decide, c5_get_legacy_fallback ⟨[], "A", ⟨0, [], []⟩, false⟩ "user:1001"
    (.response 200 (some "Dr. Heisenberg")) (by decide)⟩

/-! ### Claim C10 -/

/-- C10: a key stored with the empty byte sequence is found: `Get` returns
`found = true` with the empty value, the store is untouched and no legacy
query is issued — `self.data.get(key)` distinguishes an absent key (`None`)
from a present key with an empty value via `is not None`. -/
theorem c10_empty_value_found (S : CacheServiceServicer) (key : String)
    (legacy : LegacyOutcome) (h : dictGet S.data key = some []) :
    CacheServiceServicer.Get S key legacy =
      { response := ⟨[], true⟩, data := S.data, trace := [] } := by
  simp [CacheServiceServicer.Get, h]

/-- Witness for C10 at a concrete input. -/
theorem c10_empty_value_found_witness :
    dictGet ([("k", [])] : List (String × List Nat)) "k" = some [] ∧
    CacheServiceServicer.Get ⟨[("k", [])], "A", ⟨0, [], []⟩, false⟩ "k" .exn =
      { response := ⟨[], true⟩, data := [("k", [])], trace := [] } :=
  ⟨by decide, c10_empty_value_found ⟨[("k", [])], "A", ⟨0, [], []⟩, false⟩ "k" .exn (by decide)⟩
